import Mathlib

set_option autoImplicit false

/-!
Verification of the aggregation engine of `dua-cli` (`src/aggregate.rs`).

The development shallowly embeds the `aggregate` function and its helpers.
External collaborators that the specification declares out of scope (the
directory walker, device-identity resolution, the hard-link identity tracker,
byte-count display formatting) are represented at their interface boundary:
a root input carries the walker's entry sequence and the result of device
resolution, and the identity tracker and device comparison are modelled from
the specification's interface description.

Machine integers (`u64`, `u128`) are modelled as `Nat`; the only place the
width matters is the `u128::max_value()` initialisation sentinel for the
smallest-file statistic, kept as `u128_max`.
-/

/-- The value `u128::max_value()`, the initialisation sentinel for the smallest-file
statistic (`aggregate.rs` line 78). -/
def u128_max : Nat := 2 ^ 128 - 1

/-- Statistics obtained during a filesystem walk (`aggregate.rs` lines 220-228). -/
structure Statistics where
  entries_traversed : Nat
  smallest_file_in_bytes : Nat
  largest_file_in_bytes : Nat
deriving Repr, DecidableEq

/-- The run result: the global error count (`WalkResult` of the `dua` crate,
used here only through its `num_errors` field). -/
structure WalkResult where
  num_errors : Nat
deriving Repr, DecidableEq

/-- The subset of `WalkOptions` that `aggregate` reads, with the external byte
formatter (`byte_format.display` / `byte_format.width`) at its interface
boundary: a rendering function and a maximum width. -/
structure WalkOptions where
  apparent_size : Bool
  count_hard_links : Bool
  cross_filesystems : Bool
  byte_format_width : Nat
  byte_format_display : Nat → String

/-- Entry metadata as the walker exposes it: directory flag, hard-link
identity key (inode), device identifier, logical length, and the outcome of
the `size_on_disk_fast` query for this entry (`none` models a failed query). -/
structure Metadata where
  is_dir : Bool
  ino : Nat
  dev : Nat
  len : Nat
  size_on_disk : Option Nat
deriving Repr, DecidableEq

/-- One walker entry. `walkErr` is a walker-level enumeration error
(`Err(_)` in the entry loop); `ok client_state` is a successfully yielded
entry whose `client_state : Option<Result<Metadata, _>>` is modelled with
`none` for the `None` case (directory, ignored), `some none` for
`Some(Err(_))` (metadata error) and `some (some m)` for `Some(Ok(m))`. -/
inductive Entry where
  | walkErr : Entry
  | ok (client_state : Option (Option Metadata)) : Entry
deriving Repr, DecidableEq

/-- The set of already-seen hard-link identity keys. -/
abbrev InodeFilter := List Nat

/-- Modelled from the spec: the external identity tracker's `add` operation,
missing from `src/` (only its caller is present). "membership test also
inserts": it reports whether the key was not yet seen and inserts it on first
check; a key already present is left alone and reported as seen. -/
def InodeFilter.add (f : InodeFilter) (ino : Nat) : Bool × InodeFilter :=
  if f.contains ino then (false, f) else (true, ino :: f)

/-- Modelled from the spec: the external device comparison
`crossdev::is_same_device(device_id, m)`, missing from `src/`: "the entry's
device matches the root's device". -/
def is_same_device (device_id : Nat) (m : Metadata) : Bool :=
  m.dev == device_id

/-- One root path given to `aggregate`, together with the out-of-scope
collaborators' answers for it: whether the path is a plain file (for
`path_color_of`), the result of `crossdev::init` (`none` models failure), and
the entry sequence the walker yields for it. -/
structure RootInput where
  path : String
  is_file : Bool
  device_id : Option Nat
  entries : List Entry
deriving Repr, DecidableEq

/-- The inner `match entry.client_state` expression of the entry loop
(`aggregate.rs` lines 107-129) for the `Some(Ok(m))` case, including the
guard's left-to-right short-circuit evaluation: the identity tracker is
consulted (and mutated) only when the entry is not a directory and hard-link
counting is disabled, and the device test runs only after that. Returns the
contributed `file_size`, the number of errors added (0 or 1), and the updated
identity tracker. -/
def fileSizeOfMeta (walk_options : WalkOptions) (device_id : Nat)
    (inodes : InodeFilter) (m : Metadata) : Nat × Nat × InodeFilter :=
  if m.is_dir then (0, 0, inodes)
  else
    let fresh :=
      if walk_options.count_hard_links then (true, inodes)
      else InodeFilter.add inodes m.ino
    if fresh.1 then
      if walk_options.cross_filesystems || is_same_device device_id m then
        if walk_options.apparent_size then (m.len, 0, fresh.2)
        else
          match m.size_on_disk with
          | some sz => (sz, 0, fresh.2)
          | none => (0, 1, fresh.2)
      else (0, 0, fresh.2)
    else (0, 0, fresh.2)

/-- Global mutable state threaded through the entry loop: the run statistics
and the identity tracker. -/
structure St where
  stats : Statistics
  inodes : InodeFilter
deriving Repr, DecidableEq

/-- One iteration of the entry loop (`aggregate.rs` lines 100-135): bump
`entries_traversed` for every entry; a walker error only increments the
per-root error count; otherwise resolve the entry's contribution, update the
min/max statistics with it, and add it to the per-root byte total.
The accumulator is `(global state, num_bytes, num_errors)`. -/
def processEntry (walk_options : WalkOptions) (device_id : Nat)
    (acc : St × Nat × Nat) (e : Entry) : St × Nat × Nat :=
  let st := acc.1
  let num_bytes := acc.2.1
  let num_errors := acc.2.2
  let stats := { st.stats with entries_traversed := st.stats.entries_traversed + 1 }
  match e with
  | .walkErr => (⟨stats, st.inodes⟩, num_bytes, num_errors + 1)
  | .ok client_state =>
    let r :=
      match client_state with
      | some (some m) => fileSizeOfMeta walk_options device_id st.inodes m
      | some none => (0, 1, st.inodes)
      | none => (0, 0, st.inodes)
    let stats' := { stats with
      largest_file_in_bytes := max stats.largest_file_in_bytes r.1,
      smallest_file_in_bytes := min stats.smallest_file_in_bytes r.1 }
    (⟨stats', r.2.2⟩, num_bytes + r.1, num_errors + r.2.1)

/-- The colors `aggregate` uses for paths (only cyan ever occurs). -/
inductive Color where
  | cyan : Color
deriving Repr, DecidableEq

/-- The function `path_color_of` (`aggregate.rs` lines 188-190): cyan when the path is not
a plain file, no color otherwise. -/
def path_color_of (is_file : Bool) : Option Color :=
  if !is_file then some Color.cyan else none

/-- ANSI green wrapping applied to the size field (`size.green()`). -/
def greenWrap (s : String) : String := "\x1b[32m" ++ s ++ "\x1b[39m"

/-- ANSI color wrapping applied to the path (`path.color(color)`). -/
def colorWrap : Color → String → String
  | .cyan, s => "\x1b[36m" ++ s ++ "\x1b[39m"

/-- Rust's `{:>width$}` padding: left-pad with spaces up to `w`. -/
def rightAlign (s : String) (w : Nat) : String :=
  String.mk (List.replicate (w - s.length) ' ') ++ s

/-- The renderer `output_colored_path` (`aggregate.rs` lines 192-217), rendering the line
it writes (trailing newline included): the formatted byte count right-aligned
to the display format's width and wrapped green, one space, the (possibly
colored) path, then the error suffix `  <N IO Error(s)>` when `num_errors`
is non-zero, with the plural `s` exactly when `num_errors > 1`. -/
def output_colored_path (options : WalkOptions) (path : String) (num_bytes : Nat)
    (num_errors : Nat) (path_color : Option Color) : String :=
  let size := options.byte_format_display num_bytes
  let size_width := options.byte_format_width
  let errors :=
    if num_errors != 0 then
      "  <" ++ toString num_errors ++ " IO Error" ++
        (if num_errors > 1 then "s" else "") ++ ">"
    else ""
  match path_color with
  | some color =>
    greenWrap (rightAlign size size_width) ++ " " ++ colorWrap color path ++ errors ++ "\n"
  | none =>
    greenWrap (rightAlign size size_width) ++ " " ++ path ++ errors ++ "\n"

/-- The results sink (`out : impl io::Write`). `lines` are the lines written
so far; `failAt = some k` makes the write of line index `k` fail, modelling a
sink-write failure; `failAt = none` is a reliable sink. -/
structure Sink where
  lines : List String
  failAt : Option Nat
deriving Repr, DecidableEq

/-- Writing one line to the sink; fails exactly when the sink's failing index
is the next line to be written. -/
def Sink.write (s : Sink) (line : String) : Except Unit Sink :=
  if s.failAt = some s.lines.length then .error ()
  else .ok { s with lines := s.lines ++ [line] }

/-- One buffered per-root record `(path, num_bytes, num_errors)` of the
`aggregates` vector, together with the `is_file` answer used by
`path_color_of` at output time. -/
structure RootRecord where
  path : String
  is_file : Bool
  num_bytes : Nat
  num_errors : Nat
deriving Repr, DecidableEq

/-- Rendering one buffered record, as the deferred output loop does. -/
def renderRecord (walk_options : WalkOptions) (r : RootRecord) : String :=
  output_colored_path walk_options r.path r.num_bytes r.num_errors
    (path_color_of r.is_file)

/-- The ascending-by-byte-total order used by `sort_by_key`. -/
def byteLe (a b : RootRecord) : Prop := a.num_bytes ≤ b.num_bytes

instance : DecidableRel byteLe := fun a b => Nat.decLe a.num_bytes b.num_bytes

instance : IsTotal RootRecord byteLe := ⟨fun a b => Nat.le_total a.num_bytes b.num_bytes⟩

instance : IsTrans RootRecord byteLe := ⟨fun _ _ _ h h' => Nat.le_trans h h'⟩

/-- Rust's `aggregates.sort_by_key(|&(_, num_bytes, _)| num_bytes)` is a
stable ascending sort by byte total; `List.insertionSort` is its extensional
behaviour (the unique stable sort). -/
def sortRecords (l : List RootRecord) : List RootRecord :=
  List.insertionSort byteLe l

/-- The state of the per-root `for` loop of `aggregate`. -/
structure LoopSt where
  out : Sink
  st : St
  res_errors : Nat
  total : Nat
  num_roots : Nat
  aggregates : List RootRecord
deriving Repr, DecidableEq

/-- The per-root `for` loop of `aggregate` (`aggregate.rs` lines 87-155).
On device-resolution failure the root's record is pushed onto `aggregates`
unconditionally and the loop continues; on success the entry loop runs, then
the record is either buffered (when sorting) or rendered immediately (a
fallible sink write), and the root's totals are folded into the global ones. -/
def aggLoop (walk_options : WalkOptions) (sort_by_size_in_bytes : Bool) :
    LoopSt → List RootInput → Except Unit LoopSt
  | s, [] => .ok s
  | s, root :: rest =>
    match root.device_id with
    | none =>
      aggLoop walk_options sort_by_size_in_bytes
        { s with
          num_roots := s.num_roots + 1,
          res_errors := s.res_errors + 1,
          aggregates := s.aggregates ++ [⟨root.path, root.is_file, 0, 1⟩] } rest
    | some device_id =>
      let t := root.entries.foldl (processEntry walk_options device_id) (s.st, 0, 0)
      if sort_by_size_in_bytes then
        aggLoop walk_options sort_by_size_in_bytes
          { s with
            num_roots := s.num_roots + 1,
            st := t.1,
            total := s.total + t.2.1,
            res_errors := s.res_errors + t.2.2,
            aggregates := s.aggregates ++ [⟨root.path, root.is_file, t.2.1, t.2.2⟩] } rest
      else
        match s.out.write (output_colored_path walk_options root.path t.2.1 t.2.2
            (path_color_of root.is_file)) with
        | .error e => .error e
        | .ok out' =>
          aggLoop walk_options sort_by_size_in_bytes
            { s with
              out := out',
              num_roots := s.num_roots + 1,
              st := t.1,
              total := s.total + t.2.1,
              res_errors := s.res_errors + t.2.2 } rest

/-- The deferred output loop (`aggregate.rs` lines 163-172): render each
buffered record in order, propagating the first sink-write failure. -/
def writeAll (walk_options : WalkOptions) (out : Sink) :
    List RootRecord → Except Unit Sink
  | [] => .ok out
  | rec :: recs =>
    match out.write (renderRecord walk_options rec) with
    | .error e => .error e
    | .ok out' => writeAll walk_options out' recs

/-- The initial global state: default statistics with the smallest-file
sentinel (`aggregate.rs` lines 77-80) and an empty identity tracker. -/
def st0 : St := ⟨⟨0, u128_max, 0⟩, []⟩

/-- The function `aggregate` (`aggregate.rs` lines 68-186): run the per-root loop, reset
the smallest-file statistic when nothing was traversed, emit the deferred
sorted listing when requested, and emit the total line when more than one
root was given and totals were requested. Progress writes go to the separate
optional progress sink and never affect the result; they are modelled by
`ThrottleWriter` further below. -/
def aggregate (out : Sink) (walk_options : WalkOptions) (compute_total : Bool)
    (sort_by_size_in_bytes : Bool) (paths : List RootInput) :
    Except Unit (Sink × WalkResult × Statistics) :=
  match aggLoop walk_options sort_by_size_in_bytes ⟨out, st0, 0, 0, 0, []⟩ paths with
  | .error e => .error e
  | .ok s =>
    let stats :=
      if s.st.stats.entries_traversed = 0 then
        { s.st.stats with smallest_file_in_bytes := 0 }
      else s.st.stats
    match (if sort_by_size_in_bytes then
        writeAll walk_options s.out (sortRecords s.aggregates)
      else .ok s.out) with
    | .error e => .error e
    | .ok out1 =>
      if 1 < s.num_roots ∧ compute_total then
        match out1.write (output_colored_path walk_options "total" s.total
            s.res_errors none) with
        | .error e => .error e
        | .ok out2 => .ok (out2, ⟨s.res_errors⟩, stats)
      else .ok (out1, ⟨s.res_errors⟩, stats)

/-! ## Derived per-root characterisation

`rootRecordOf`/`runRoots` recompute what one pass of the per-root loop does,
as a pure accumulating map, pairing each root's record with a flag telling
whether device resolution succeeded. The master lemmas below prove that
`aggLoop` is this computation plus output. -/

/-- The record one root contributes, with `true` when device resolution
succeeded (the entry loop ran) and `false` when it failed (zero bytes, one
error, loop skipped). -/
def rootRecordOf (walk_options : WalkOptions) (st : St) (root : RootInput) :
    St × Bool × RootRecord :=
  match root.device_id with
  | none => (st, false, ⟨root.path, root.is_file, 0, 1⟩)
  | some device_id =>
    let t := root.entries.foldl (processEntry walk_options device_id) (st, 0, 0)
    (t.1, true, ⟨root.path, root.is_file, t.2.1, t.2.2⟩)

/-- Run every root in order, threading the global state. -/
def runRoots (walk_options : WalkOptions) :
    St → List RootInput → St × List (Bool × RootRecord)
  | st, [] => (st, [])
  | st, root :: rest =>
    let x := rootRecordOf walk_options st root
    let y := runRoots walk_options x.1 rest
    (y.1, x.2 :: y.2)

/-- Sum of per-root byte totals. -/
def recBytes (l : List (Bool × RootRecord)) : Nat :=
  (l.map fun p => p.2.num_bytes).sum

/-- Sum of per-root error counts. -/
def recErrors (l : List (Bool × RootRecord)) : Nat :=
  (l.map fun p => p.2.num_errors).sum

/-- All per-root records, without the device flag. -/
def allRecords (l : List (Bool × RootRecord)) : List RootRecord :=
  l.map fun p => p.2

/-- The lines the un-sorted path writes: one rendered line per root whose
device resolution succeeded, in input order. -/
def okLines (walk_options : WalkOptions) (l : List (Bool × RootRecord)) : List String :=
  (l.filter fun p => p.1).map fun p => renderRecord walk_options p.2

/-- The records of roots whose device resolution failed, in input order. -/
def failedRecords (l : List (Bool × RootRecord)) : List RootRecord :=
  (l.filter fun p => !p.1).map fun p => p.2

theorem sink_write_none {s : Sink} (h : s.failAt = none) (line : String) :
    s.write line = .ok ⟨s.lines ++ [line], none⟩ := by
  simp [Sink.write, h]

theorem aggLoop_sorted_eq (walk_options : WalkOptions) (rs : List RootInput) :
    ∀ s : LoopSt, aggLoop walk_options true s rs = .ok
      { out := s.out,
        st := (runRoots walk_options s.st rs).1,
        res_errors := s.res_errors + recErrors (runRoots walk_options s.st rs).2,
        total := s.total + recBytes (runRoots walk_options s.st rs).2,
        num_roots := s.num_roots + rs.length,
        aggregates := s.aggregates ++ allRecords (runRoots walk_options s.st rs).2 } := by
  induction rs with
  | nil => intro s; simp [aggLoop, runRoots, recErrors, recBytes, allRecords]
  | cons root rest ih =>
    intro s
    cases hdev : root.device_id with
    | none =>
      simp only [aggLoop, hdev, ih, runRoots, rootRecordOf, recErrors, recBytes,
        allRecords, List.map_cons, List.sum_cons, List.length_cons, List.append_assoc,
        List.singleton_append, Except.ok.injEq, LoopSt.mk.injEq]
      refine ⟨trivial, trivial, by omega, by omega, by omega, trivial⟩
    | some device_id =>
      simp only [aggLoop, hdev, if_true, ih, runRoots, rootRecordOf, recErrors,
        recBytes, allRecords, List.map_cons, List.sum_cons, List.length_cons,
        List.append_assoc, List.singleton_append, Except.ok.injEq, LoopSt.mk.injEq]
      refine ⟨trivial, trivial, by omega, by omega, by omega, trivial⟩


theorem aggLoop_nosort_eq (walk_options : WalkOptions) (rs : List RootInput) :
    ∀ s : LoopSt, s.out.failAt = none →
      aggLoop walk_options false s rs = .ok
        { out := ⟨s.out.lines ++ okLines walk_options (runRoots walk_options s.st rs).2, none⟩,
          st := (runRoots walk_options s.st rs).1,
          res_errors := s.res_errors + recErrors (runRoots walk_options s.st rs).2,
          total := s.total + recBytes (runRoots walk_options s.st rs).2,
          num_roots := s.num_roots + rs.length,
          aggregates := s.aggregates ++ failedRecords (runRoots walk_options s.st rs).2 } := by
  induction rs with
  | nil =>
    intro s h
    obtain ⟨⟨lines, fa⟩, sst, re, tot, nr, ag⟩ := s
    obtain rfl : fa = none := h
    simp [aggLoop, runRoots, okLines, recErrors, recBytes, failedRecords]
  | cons root rest ih =>
    intro s h
    obtain ⟨⟨lines, fa⟩, sst, re, tot, nr, ag⟩ := s
    obtain rfl : fa = none := h
    cases hdev : root.device_id with
    | none =>
      rw [show aggLoop walk_options false ⟨⟨lines, none⟩, sst, re, tot, nr, ag⟩ (root :: rest) =
          aggLoop walk_options false ⟨⟨lines, none⟩, sst, re + 1, tot, nr + 1,
            ag ++ [⟨root.path, root.is_file, 0, 1⟩]⟩ rest from by
        simp only [aggLoop, hdev]]
      rw [ih ⟨⟨lines, none⟩, sst, re + 1, tot, nr + 1,
            ag ++ [(⟨root.path, root.is_file, 0, 1⟩ : RootRecord)]⟩ rfl]
      simp only [runRoots, rootRecordOf, hdev, okLines, recErrors, recBytes,
        failedRecords, List.filter_cons, List.map_cons, List.sum_cons,
        List.length_cons, List.append_assoc, List.singleton_append,
        Except.ok.injEq, LoopSt.mk.injEq, Bool.not_false, if_true, if_false,
        Bool.false_eq_true, Bool.not_true, ite_true, ite_false]
      refine ⟨trivial, trivial, by omega, by omega, by omega, trivial⟩
    | some device_id =>
      rw [show aggLoop walk_options false ⟨⟨lines, none⟩, sst, re, tot, nr, ag⟩ (root :: rest) =
          aggLoop walk_options false ⟨⟨lines ++ [output_colored_path walk_options root.path
              (List.foldl (processEntry walk_options device_id) (sst, 0, 0) root.entries).2.1
              (List.foldl (processEntry walk_options device_id) (sst, 0, 0) root.entries).2.2
              (path_color_of root.is_file)], none⟩,
            (List.foldl (processEntry walk_options device_id) (sst, 0, 0) root.entries).1,
            re + (List.foldl (processEntry walk_options device_id) (sst, 0, 0) root.entries).2.2,
            tot + (List.foldl (processEntry walk_options device_id) (sst, 0, 0) root.entries).2.1,
            nr + 1, ag⟩ rest from by
        simp only [aggLoop, hdev, Sink.write, List.length_nil, reduceCtorEq, if_false,
          Option.some.injEq]]
      rw [ih ⟨⟨lines ++ [output_colored_path walk_options root.path
              (List.foldl (processEntry walk_options device_id) (sst, 0, 0) root.entries).2.1
              (List.foldl (processEntry walk_options device_id) (sst, 0, 0) root.entries).2.2
              (path_color_of root.is_file)], none⟩,
            (List.foldl (processEntry walk_options device_id) (sst, 0, 0) root.entries).1,
            re + (List.foldl (processEntry walk_options device_id) (sst, 0, 0) root.entries).2.2,
            tot + (List.foldl (processEntry walk_options device_id) (sst, 0, 0) root.entries).2.1,
            nr + 1, ag⟩ rfl]
      simp only [runRoots, rootRecordOf, hdev, okLines, recErrors, recBytes,
        failedRecords, List.filter_cons, List.map_cons, List.sum_cons,
        List.length_cons, List.append_assoc, List.singleton_append,
        Except.ok.injEq, LoopSt.mk.injEq, Bool.not_false, if_true, if_false,
        Bool.false_eq_true, Bool.not_true, ite_true, ite_false, renderRecord]
      refine ⟨trivial, trivial, by omega, by omega, by omega, trivial⟩

theorem writeAll_none (walk_options : WalkOptions) (recs : List RootRecord) :
    ∀ out : Sink, out.failAt = none →
      writeAll walk_options out recs =
        .ok ⟨out.lines ++ recs.map (renderRecord walk_options), none⟩ := by
  induction recs with
  | nil =>
    intro out h
    obtain ⟨lines, fa⟩ := out
    obtain rfl : fa = none := h
    simp [writeAll]
  | cons rec rest ih =>
    intro out h
    obtain ⟨lines, fa⟩ := out
    obtain rfl : fa = none := h
    rw [show writeAll walk_options ⟨lines, none⟩ (rec :: rest) =
        writeAll walk_options ⟨lines ++ [renderRecord walk_options rec], none⟩ rest from by
      simp only [writeAll, Sink.write, reduceCtorEq, if_false]]
    rw [ih ⟨lines ++ [renderRecord walk_options rec], none⟩ rfl]
    simp

/-- The global error count of a run: the sum of all per-root error counts
(device failures count one each). -/
def globalErrors (walk_options : WalkOptions) (paths : List RootInput) : Nat :=
  recErrors (runRoots walk_options st0 paths).2

/-- The grand total: the sum of all per-root byte totals. -/
def grandTotal (walk_options : WalkOptions) (paths : List RootInput) : Nat :=
  recBytes (runRoots walk_options st0 paths).2

/-- The statistics a run reports: the accumulated statistics with the
smallest-file sentinel reset to 0 when no entries were traversed. -/
def finalStats (walk_options : WalkOptions) (paths : List RootInput) : Statistics :=
  let stats := (runRoots walk_options st0 paths).1.stats
  if stats.entries_traversed = 0 then { stats with smallest_file_in_bytes := 0 }
  else stats

/-- The result lines of a run before the total line: sorted ascending by
byte total over all roots when sorting is requested, otherwise one line per
device-resolvable root in input order. -/
def bodyLines (walk_options : WalkOptions) (sort_by_size_in_bytes : Bool)
    (paths : List RootInput) : List String :=
  if sort_by_size_in_bytes then
    (sortRecords (allRecords (runRoots walk_options st0 paths).2)).map
      (renderRecord walk_options)
  else okLines walk_options (runRoots walk_options st0 paths).2

/-- The optional total line: present exactly when more than one root was
given and totals were requested. -/
def totalLinePart (walk_options : WalkOptions) (compute_total : Bool)
    (paths : List RootInput) : List String :=
  if 1 < paths.length ∧ compute_total then
    [output_colored_path walk_options "total" (grandTotal walk_options paths)
      (globalErrors walk_options paths) none]
  else []

/-- All lines a successful run writes, in order. -/
def aggregateLines (walk_options : WalkOptions) (compute_total sort_by_size_in_bytes : Bool)
    (paths : List RootInput) : List String :=
  bodyLines walk_options sort_by_size_in_bytes paths ++
    totalLinePart walk_options compute_total paths

theorem aggregate_ok (out : Sink) (walk_options : WalkOptions)
    (compute_total sort_by_size_in_bytes : Bool) (paths : List RootInput)
    (h : out.failAt = none) :
    aggregate out walk_options compute_total sort_by_size_in_bytes paths = .ok
      (⟨out.lines ++ aggregateLines walk_options compute_total sort_by_size_in_bytes paths,
        none⟩,
       ⟨globalErrors walk_options paths⟩, finalStats walk_options paths) := by
  obtain ⟨lines, fa⟩ := out
  obtain rfl : fa = none := h
  cases sort_by_size_in_bytes with
  | true =>
    rw [aggregate, aggLoop_sorted_eq walk_options paths ⟨⟨lines, none⟩, st0, 0, 0, 0, []⟩]
    by_cases hc : 1 < paths.length ∧ compute_total = true
    all_goals
      simp [aggregateLines, bodyLines, totalLinePart, grandTotal, globalErrors, finalStats,
        writeAll_none, sink_write_none, hc]
  | false =>
    rw [aggregate, aggLoop_nosort_eq walk_options paths ⟨⟨lines, none⟩, st0, 0, 0, 0, []⟩ rfl]
    by_cases hc : 1 < paths.length ∧ compute_total = true
    all_goals
      simp [aggregateLines, bodyLines, totalLinePart, grandTotal, globalErrors, finalStats,
        writeAll_none, sink_write_none, hc]

theorem sortRecords_sorted (l : List RootRecord) :
    List.Sorted byteLe (sortRecords l) :=
  List.sorted_insertionSort byteLe l

theorem sortRecords_perm (l : List RootRecord) : List.Perm (sortRecords l) l :=
  List.perm_insertionSort byteLe l

theorem filter_orderedInsert (b : Nat) (x : RootRecord) (l : List RootRecord) :
    (List.orderedInsert byteLe x l).filter (fun r => r.num_bytes == b) =
      if x.num_bytes = b then x :: l.filter (fun r => r.num_bytes == b)
      else l.filter (fun r => r.num_bytes == b) := by
  induction l with
  | nil =>
    by_cases hx : x.num_bytes = b <;>
      simp [List.orderedInsert, List.filter_cons, beq_iff_eq, hx]
  | cons y ys ih =>
    by_cases hxy : byteLe x y
    · simp only [List.orderedInsert, if_pos hxy, List.filter_cons]
      by_cases hx : x.num_bytes = b <;> simp [beq_iff_eq, hx]
    · simp only [List.orderedInsert, if_neg hxy, List.filter_cons, ih]
      have hlt : y.num_bytes < x.num_bytes := by
        simp only [byteLe, not_le] at hxy
        exact hxy
      by_cases hx : x.num_bytes = b <;> by_cases hy : y.num_bytes = b <;>
        simp [beq_iff_eq, hx, hy] <;> omega

theorem filter_sortRecords (b : Nat) (l : List RootRecord) :
    (sortRecords l).filter (fun r => r.num_bytes == b) =
      l.filter (fun r => r.num_bytes == b) := by
  induction l with
  | nil => rfl
  | cons x xs ih =>
    show (List.orderedInsert byteLe x (sortRecords xs)).filter _ = _
    rw [filter_orderedInsert, ih]
    by_cases hx : x.num_bytes = b <;> simp [beq_iff_eq, hx, List.filter_cons]

theorem writeAll_some (walk_options : WalkOptions) (recs : List RootRecord) :
    ∀ (s : Sink) (k : Nat), s.failAt = some k →
      writeAll walk_options s recs =
        if s.lines.length ≤ k ∧ k < s.lines.length + recs.length then .error ()
        else .ok ⟨s.lines ++ recs.map (renderRecord walk_options), some k⟩ := by
  induction recs with
  | nil =>
    intro s k h
    obtain ⟨lines, fa⟩ := s
    obtain rfl : fa = some k := h
    rw [if_neg (by simp only [List.length_nil]; omega)]
    simp [writeAll]
  | cons rec rest ih =>
    intro s k h
    obtain ⟨lines, fa⟩ := s
    obtain rfl : fa = some k := h
    by_cases hk : k = lines.length
    · subst hk
      rw [if_pos (by simp only [List.length_cons]; omega)]
      simp [writeAll, Sink.write]
    · rw [show writeAll walk_options ⟨lines, some k⟩ (rec :: rest) =
          writeAll walk_options ⟨lines ++ [renderRecord walk_options rec], some k⟩ rest from by
        simp only [writeAll, Sink.write, Option.some.injEq]
        rw [if_neg (by omega)]]
      rw [ih ⟨lines ++ [renderRecord walk_options rec], some k⟩ k rfl]
      by_cases hw : lines.length ≤ k ∧ k < lines.length + (rec :: rest).length
      · rw [if_pos hw]
        rw [if_pos (by simp only [List.length_cons, List.length_append,
          List.length_singleton, List.length_nil] at hw ⊢; omega)]
      · rw [if_neg hw]
        rw [if_neg (by simp only [List.length_cons, List.length_append,
          List.length_singleton, List.length_nil] at hw ⊢; omega)]
        simp


theorem aggLoop_nosort_some (walk_options : WalkOptions) (rs : List RootInput) :
    ∀ (s : LoopSt) (k : Nat), s.out.failAt = some k →
      aggLoop walk_options false s rs =
        if s.out.lines.length ≤ k ∧
            k < s.out.lines.length +
              (okLines walk_options (runRoots walk_options s.st rs).2).length
        then .error ()
        else .ok
          { out := ⟨s.out.lines ++ okLines walk_options (runRoots walk_options s.st rs).2,
              some k⟩,
            st := (runRoots walk_options s.st rs).1,
            res_errors := s.res_errors + recErrors (runRoots walk_options s.st rs).2,
            total := s.total + recBytes (runRoots walk_options s.st rs).2,
            num_roots := s.num_roots + rs.length,
            aggregates := s.aggregates ++ failedRecords (runRoots walk_options s.st rs).2 } := by
  induction rs with
  | nil =>
    intro s k h
    obtain ⟨⟨lines, fa⟩, sst, re, tot, nr, ag⟩ := s
    obtain rfl : fa = some k := h
    rw [if_neg (by simp [runRoots, okLines])]
    simp [aggLoop, runRoots, okLines, recErrors, recBytes, failedRecords]
  | cons root rest ih =>
    intro s k h
    obtain ⟨⟨lines, fa⟩, sst, re, tot, nr, ag⟩ := s
    obtain rfl : fa = some k := h
    cases hdev : root.device_id with
    | none =>
      rw [show aggLoop walk_options false ⟨⟨lines, some k⟩, sst, re, tot, nr, ag⟩ (root :: rest) =
          aggLoop walk_options false ⟨⟨lines, some k⟩, sst, re + 1, tot, nr + 1,
            ag ++ [(⟨root.path, root.is_file, 0, 1⟩ : RootRecord)]⟩ rest from by
        simp only [aggLoop, hdev]]
      rw [ih ⟨⟨lines, some k⟩, sst, re + 1, tot, nr + 1,
            ag ++ [(⟨root.path, root.is_file, 0, 1⟩ : RootRecord)]⟩ k rfl]
      simp only [runRoots, rootRecordOf, hdev, okLines, recErrors, recBytes,
        failedRecords, List.filter_cons, List.map_cons, List.sum_cons,
        List.length_cons, List.append_assoc, List.singleton_append,
        Bool.not_false, if_true, if_false, Bool.false_eq_true, Bool.not_true,
        ite_true, ite_false]
      by_cases hw : lines.length ≤ k ∧
          k < lines.length +
            ((runRoots walk_options sst rest).2.filter (fun p => p.1)).length
      · rw [if_pos (by simpa using hw)]
        rw [if_pos (by simpa using hw)]
      · rw [if_neg (by simpa using hw), if_neg (by simpa using hw)]
        simp only [Except.ok.injEq, LoopSt.mk.injEq]
        refine ⟨trivial, trivial, by omega, by omega, by omega, trivial⟩
    | some device_id =>
      by_cases hk : k = lines.length
      · subst hk
        rw [show aggLoop walk_options false
              ⟨⟨lines, some lines.length⟩, sst, re, tot, nr, ag⟩ (root :: rest) =
              .error () from by
          simp [aggLoop, hdev, Sink.write]]
        rw [if_pos (by
          refine ⟨le_refl _, ?_⟩
          simp only [runRoots, rootRecordOf, hdev, okLines, List.filter_cons,
            List.map_cons, List.length_cons, if_true, ite_true]
          omega)]
      · rw [show aggLoop walk_options false ⟨⟨lines, some k⟩, sst, re, tot, nr, ag⟩
              (root :: rest) =
            aggLoop walk_options false ⟨⟨lines ++ [output_colored_path walk_options root.path
                (List.foldl (processEntry walk_options device_id) (sst, 0, 0) root.entries).2.1
                (List.foldl (processEntry walk_options device_id) (sst, 0, 0) root.entries).2.2
                (path_color_of root.is_file)], some k⟩,
              (List.foldl (processEntry walk_options device_id) (sst, 0, 0) root.entries).1,
              re + (List.foldl (processEntry walk_options device_id) (sst, 0, 0) root.entries).2.2,
              tot + (List.foldl (processEntry walk_options device_id) (sst, 0, 0) root.entries).2.1,
              nr + 1, ag⟩ rest from by
          simp only [aggLoop, hdev, Sink.write, Option.some.injEq, reduceCtorEq,
            Bool.false_eq_true, if_false, ite_false, if_neg hk]]
        rw [ih ⟨⟨lines ++ [output_colored_path walk_options root.path
                (List.foldl (processEntry walk_options device_id) (sst, 0, 0) root.entries).2.1
                (List.foldl (processEntry walk_options device_id) (sst, 0, 0) root.entries).2.2
                (path_color_of root.is_file)], some k⟩,
              (List.foldl (processEntry walk_options device_id) (sst, 0, 0) root.entries).1,
              re + (List.foldl (processEntry walk_options device_id) (sst, 0, 0) root.entries).2.2,
              tot + (List.foldl (processEntry walk_options device_id) (sst, 0, 0) root.entries).2.1,
              nr + 1, ag⟩ k rfl]
        simp only [runRoots, rootRecordOf, hdev, okLines, recErrors, recBytes,
          failedRecords, List.filter_cons, List.map_cons, List.sum_cons,
          List.length_cons, List.length_append, List.length_singleton,
          List.length_nil, List.append_assoc, List.singleton_append,
          Bool.not_false, if_true, if_false, Bool.false_eq_true, Bool.not_true,
          ite_true, ite_false, renderRecord]
        by_cases hw : lines.length ≤ k ∧
            k < lines.length + (((runRoots walk_options
                (List.foldl (processEntry walk_options device_id) (sst, 0, 0) root.entries).1
                rest).2.filter (fun p => p.1)).length + 1)
        · rw [if_pos (by
            simp only [List.length_map] at hw ⊢
            omega), if_pos (by simp only [List.length_map] at hw ⊢; omega)]
        · rw [if_neg (by
            simp only [List.length_map] at hw ⊢
            omega), if_neg (by simp only [List.length_map] at hw ⊢; omega)]
          simp only [Except.ok.injEq, LoopSt.mk.injEq]
          refine ⟨trivial, trivial, by omega, by omega, by omega, trivial⟩

theorem aggregate_error_iff (out : Sink) (walk_options : WalkOptions)
    (compute_total sort_by_size_in_bytes : Bool) (paths : List RootInput)
    (k : Nat) (h : out.failAt = some k) :
    (aggregate out walk_options compute_total sort_by_size_in_bytes paths = .error ()) ↔
      (out.lines.length ≤ k ∧
        k < out.lines.length +
          (aggregateLines walk_options compute_total sort_by_size_in_bytes paths).length) := by
  obtain ⟨lines, fa⟩ := out
  obtain rfl : fa = some k := h
  cases sort_by_size_in_bytes with
  | true =>
    rw [aggregate, aggLoop_sorted_eq walk_options paths ⟨⟨lines, some k⟩, st0, 0, 0, 0, []⟩]
    simp only [List.nil_append, Nat.zero_add, if_true, ite_true]
    rw [writeAll_some walk_options
      (sortRecords (allRecords (runRoots walk_options st0 paths).2)) ⟨lines, some k⟩ k rfl]
    by_cases h1 : lines.length ≤ k ∧
        k < lines.length + (sortRecords (allRecords (runRoots walk_options st0 paths).2)).length
    · rw [if_pos h1]
      simp only [aggregateLines, bodyLines, totalLinePart, ite_true, if_true,
        List.length_append, List.length_map, eq_self_iff_true, true_iff]
      rcases h1 with ⟨ha, hb⟩
      refine ⟨ha, ?_⟩
      have : (0:Nat) ≤ (if 1 < paths.length ∧ compute_total = true then
        [output_colored_path walk_options "total" (grandTotal walk_options paths)
          (globalErrors walk_options paths) none] else []).length := Nat.zero_le _
      omega
    · rw [if_neg h1]
      dsimp only
      by_cases hc : 1 < paths.length ∧ compute_total = true
      · rw [if_pos hc]
        simp only [Sink.write, Option.some.injEq]
        by_cases h2 : k = (lines ++ List.map (renderRecord walk_options)
            (sortRecords (allRecords (runRoots walk_options st0 paths).2))).length
        · rw [if_pos h2]
          simp only [aggregateLines, bodyLines, totalLinePart, ite_true, if_true, hc,
            true_and, and_self, List.length_append, List.length_map, List.length_cons,
            List.length_nil, eq_self_iff_true, true_iff]
          simp only [List.length_append, List.length_map] at h2
          omega
        · rw [if_neg h2]
          simp only [aggregateLines, bodyLines, totalLinePart, ite_true, if_true, hc,
            true_and, and_self, List.length_append, List.length_map, List.length_cons,
            List.length_nil, reduceCtorEq, false_iff]
          simp only [List.length_append, List.length_map] at h2
          omega
      · rw [if_neg hc]
        simp only [aggregateLines, bodyLines, totalLinePart, ite_true, if_true, hc,
          if_false, ite_false, List.length_append, List.length_map, List.length_nil,
          reduceCtorEq, false_iff]
        omega
  | false =>
    rw [aggregate,
      aggLoop_nosort_some walk_options paths ⟨⟨lines, some k⟩, st0, 0, 0, 0, []⟩ k rfl]
    by_cases h1 : lines.length ≤ k ∧
        k < lines.length + (okLines walk_options (runRoots walk_options st0 paths).2).length
    · rw [if_pos (by simpa using h1)]
      simp only [aggregateLines, bodyLines, totalLinePart, ite_false, if_false,
        Bool.false_eq_true, List.length_append, eq_self_iff_true, true_iff]
      rcases h1 with ⟨ha, hb⟩
      refine ⟨ha, ?_⟩
      have : (0:Nat) ≤ (if 1 < paths.length ∧ compute_total = true then
        [output_colored_path walk_options "total" (grandTotal walk_options paths)
          (globalErrors walk_options paths) none] else []).length := Nat.zero_le _
      omega
    · rw [if_neg (by simpa using h1)]
      dsimp only
      simp only [Nat.zero_add, Bool.false_eq_true, if_false, ite_false]
      by_cases hc : 1 < paths.length ∧ compute_total = true
      · rw [if_pos hc]
        simp only [Sink.write, Option.some.injEq]
        by_cases h2 : k = (lines ++ okLines walk_options (runRoots walk_options st0 paths).2).length
        · rw [if_pos h2]
          simp only [aggregateLines, bodyLines, totalLinePart, ite_false, if_false,
            Bool.false_eq_true, hc, ite_true, if_true, true_and, and_self, List.length_append,
            List.length_cons, List.length_nil, eq_self_iff_true, true_iff]
          simp only [List.length_append] at h2
          omega
        · rw [if_neg h2]
          simp only [aggregateLines, bodyLines, totalLinePart, ite_false, if_false,
            Bool.false_eq_true, hc, ite_true, if_true, true_and, and_self, List.length_append,
            List.length_cons, List.length_nil, reduceCtorEq, false_iff]
          simp only [List.length_append] at h2
          omega
      · rw [if_neg hc]
        simp only [aggregateLines, bodyLines, totalLinePart, ite_false, if_false,
          Bool.false_eq_true, hc, List.length_append, List.length_nil,
          reduceCtorEq, false_iff]
        omega

/-! ## The rate-limited progress signal (`ThrottleWriter`)

`ThrottleWriter` wraps an optional sink and a shared boolean trigger
(initially false). When a sink is present, a background timer thread sleeps
one second and then repeatedly stores `true` into the trigger and sleeps the
configured interval; when no sink is present, no thread is spawned and the
trigger is never set. `throttled f` swaps the trigger to `false` and runs
`f` against the sink only when the old value was `true`; `unthrottled f`
runs `f` against the sink unconditionally.

The concurrent execution is modelled as a time-stamped discrete event trace
interleaving the timer's stores (`tick`) with the orchestrator's calls. -/

/-- The `ThrottleWriter` state observable by its operations. -/
structure ThrottleWriter where
  hasOut : Bool
  trigger : Bool
deriving Repr, DecidableEq

/-- The constructor `ThrottleWriter::new`: the trigger starts `false` (its `Default`). -/
def ThrottleWriter.new (hasOut : Bool) : ThrottleWriter := ⟨hasOut, false⟩

/-- One time-stamped event: a timer tick (`trigger.store(true)`), a
`throttled` call, or an `unthrottled` call. Times are in milliseconds. -/
inductive TWEvent where
  | tick (t : Nat) : TWEvent
  | throttled (t : Nat) : TWEvent
  | unthrottled (t : Nat) : TWEvent
deriving Repr, DecidableEq

/-- The timestamp of an event. -/
def TWEvent.time : TWEvent → Nat
  | .tick t => t
  | .throttled t => t
  | .unthrottled t => t

/-- Whether an event is a timer tick. -/
def TWEvent.isTick : TWEvent → Bool
  | .tick _ => true
  | _ => false

/-- The timestamps of the tick events of a trace, in order. -/
def ticksOf (evs : List TWEvent) : List Nat :=
  (evs.filter TWEvent.isTick).map TWEvent.time

/-- Run a trace against the writer state, returning every invocation of a
rendering closure against the sink: `(true, t)` for an invocation performed
by `throttled` at time `t`, `(false, t)` for one performed by
`unthrottled`. -/
def twRun (s : ThrottleWriter) : List TWEvent → List (Bool × Nat)
  | [] => []
  | .tick _ :: es => twRun { s with trigger := true } es
  | .throttled t :: es =>
    if s.trigger then
      (if s.hasOut then [(true, t)] else []) ++ twRun { s with trigger := false } es
    else twRun s es
  | .unthrottled t :: es =>
    (if s.hasOut then [(false, t)] else []) ++ twRun s es

/-- The number of closure invocations performed by `throttled`. -/
def twFireCount (l : List (Bool × Nat)) : Nat :=
  (l.filter fun p => p.1).length

/-- Well-formedness of a trace for a writer with a sink and tick interval
`d`: events are in chronological order, and the `k`-th tick cannot happen
before the one-second startup delay plus `k` full intervals (the timer
sleeps one second, then alternates store / sleep-`d`). -/
def TWWF (d : Nat) (evs : List TWEvent) : Prop :=
  evs.Pairwise (fun a b => a.time ≤ b.time) ∧
  ∀ i (h : i < (ticksOf evs).length), 1000 + i * d ≤ (ticksOf evs).get ⟨i, h⟩

theorem twRun_no_out (evs : List TWEvent) : ∀ b, twRun ⟨false, b⟩ evs = [] := by
  induction evs with
  | nil => intro b; rfl
  | cons e es ih =>
    intro b
    cases e with
    | tick t => exact ih true
    | throttled t =>
      by_cases hb : b <;> simp [twRun, hb, ih]
    | unthrottled t => simp [twRun, ih]

@[simp] theorem ticksOf_nil : ticksOf [] = [] := rfl

@[simp] theorem ticksOf_tick (t : Nat) (es : List TWEvent) :
    ticksOf (.tick t :: es) = t :: ticksOf es := by
  simp [ticksOf, TWEvent.isTick, TWEvent.time]

@[simp] theorem ticksOf_throttled (t : Nat) (es : List TWEvent) :
    ticksOf (.throttled t :: es) = ticksOf es := by
  simp [ticksOf, TWEvent.isTick]

@[simp] theorem ticksOf_unthrottled (t : Nat) (es : List TWEvent) :
    ticksOf (.unthrottled t :: es) = ticksOf es := by
  simp [ticksOf, TWEvent.isTick]

@[simp] theorem twFireCount_nil : twFireCount [] = 0 := rfl

@[simp] theorem twFireCount_cons (p : Bool × Nat) (l : List (Bool × Nat)) :
    twFireCount (p :: l) = (if p.1 then 1 else 0) + twFireCount l := by
  cases hp : p.1 <;> simp [twFireCount, List.filter_cons, hp] <;> omega

@[simp] theorem twFireCount_append (l₁ l₂ : List (Bool × Nat)) :
    twFireCount (l₁ ++ l₂) = twFireCount l₁ + twFireCount l₂ := by
  simp [twFireCount, List.filter_append]

theorem twFireCount_le_ticks (evs : List TWEvent) :
    ∀ b, twFireCount (twRun ⟨true, b⟩ evs) ≤
      (ticksOf evs).length + (if b then 1 else 0) := by
  induction evs with
  | nil => intro b; simp [twRun]
  | cons e es ih =>
    intro b
    cases e with
    | tick t =>
      have h := ih true
      simp only [twRun, ticksOf_tick, List.length_cons] at h ⊢
      simp only [ite_true, if_true] at h
      cases b <;> simp <;> omega
    | throttled t =>
      cases b with
      | true =>
        have h := ih false
        simp [twRun] at h ⊢
        omega
      | false =>
        have h := ih false
        simp [twRun] at h ⊢
        omega
    | unthrottled t =>
      have h := ih b
      simp [twRun] at h ⊢
      cases b <;> simp_all <;> omega

theorem twRun_times (evs : List TWEvent) :
    ∀ (s : ThrottleWriter) (c : Nat), (∀ e ∈ evs, c ≤ e.time) →
      ∀ p ∈ twRun s evs, c ≤ p.2 := by
  induction evs with
  | nil => intro s c _ p hp; simp [twRun] at hp
  | cons e es ih =>
    intro s c hc p hp
    have htail : ∀ e ∈ es, c ≤ e.time := fun e he => hc e (List.mem_cons_of_mem _ he)
    cases e with
    | tick t =>
      exact ih _ c htail p (by simpa [twRun] using hp)
    | throttled t =>
      by_cases hs : s.trigger
      · simp only [twRun, hs, if_true, ite_true] at hp
        rcases List.mem_append.mp hp with h1 | h2
        · by_cases ho : s.hasOut
          · simp only [ho, if_true, ite_true, List.mem_singleton] at h1
            subst h1
            simpa [TWEvent.time] using hc (.throttled t) (by simp)
          · simp [ho] at h1
        · exact ih _ c htail p h2
      · simp only [twRun, hs, Bool.false_eq_true, if_false, ite_false] at hp
        exact ih _ c htail p hp
    | unthrottled t =>
      simp only [twRun] at hp
      rcases List.mem_append.mp hp with h1 | h2
      · by_cases ho : s.hasOut
        · simp only [ho, if_true, ite_true, List.mem_singleton] at h1
          subst h1
          simpa [TWEvent.time] using hc (.unthrottled t) (by simp)
        · simp [ho] at h1
      · exact ih _ c htail p h2

theorem twRun_fires_after_startup (evs : List TWEvent) :
    evs.Pairwise (fun a b => a.time ≤ b.time) →
    (∀ t ∈ ticksOf evs, 1000 ≤ t) →
    ∀ p ∈ twRun ⟨true, false⟩ evs, p.1 = true → 1000 ≤ p.2 := by
  induction evs with
  | nil => intro _ _ p hp; simp [twRun] at hp
  | cons e es ih =>
    intro hpair hticks p hp hfire
    cases e with
    | tick t =>
      have ht : (1000 : Nat) ≤ t := hticks t (by simp)
      have hall : ∀ e ∈ es, (1000 : Nat) ≤ e.time := by
        intro e he
        exact le_trans ht ((List.pairwise_cons.mp hpair).1 e he)
      exact twRun_times es _ 1000 hall p (by simpa [twRun] using hp)
    | throttled t =>
      simp only [twRun, Bool.false_eq_true, if_false, ite_false] at hp
      exact ih (List.pairwise_cons.mp hpair).2 (by simpa using hticks) p hp hfire
    | unthrottled t =>
      simp only [twRun, if_true, ite_true, List.singleton_append] at hp
      rcases List.mem_cons.mp hp with h1 | h2
      · rw [h1] at hfire; simp at hfire
      · exact ih (List.pairwise_cons.mp hpair).2 (by simpa using hticks) p h2 hfire

/-! ## Declarative per-entry classification (the specification's wording)

The specification describes the per-entry decision declaratively: eligibility
is `(hard-link counting enabled OR identity key not yet seen) AND
(cross-filesystem traversal enabled OR same device as the root)`; a directory
or ineligible entry contributes 0 bytes and no error; an eligible entry
contributes its logical length in apparent mode and its allocated size in
on-disk mode, a failed allocation query contributing 0 bytes and exactly one
error. The refinement theorem for C1 proves the operational translation
`fileSizeOfMeta` produces exactly these contributions and error increments. -/

/-- The claim's eligibility predicate, stated declaratively over the set of
already-seen identity keys. -/
def specEligible (walk_options : WalkOptions) (device_id : Nat)
    (inodes : InodeFilter) (m : Metadata) : Bool :=
  (walk_options.count_hard_links || !(inodes.contains m.ino)) &&
    (walk_options.cross_filesystems || is_same_device device_id m)

/-- The claim's byte contribution for a successfully-enumerated entry with
metadata. -/
def specContribution (walk_options : WalkOptions) (device_id : Nat)
    (inodes : InodeFilter) (m : Metadata) : Nat :=
  if m.is_dir then 0
  else if specEligible walk_options device_id inodes m then
    (if walk_options.apparent_size then m.len else m.size_on_disk.getD 0)
  else 0

/-- The claim's error increment for a successfully-enumerated entry with
metadata: exactly one, exactly for an eligible non-directory whose on-disk
allocation query fails. -/
def specErrorDelta (walk_options : WalkOptions) (device_id : Nat)
    (inodes : InodeFilter) (m : Metadata) : Nat :=
  if !m.is_dir && specEligible walk_options device_id inodes m &&
      !walk_options.apparent_size && m.size_on_disk.isNone then 1 else 0

/-- Claim C1: for every successfully-enumerated entry with metadata, the byte
contribution and error increment of the entry loop are exactly the
specification's: a directory contributes 0 bytes; a non-directory is counted
if and only if (hard-link counting is enabled OR its identity key is
not-yet-seen) AND (cross-filesystem traversal is enabled OR its device equals
the root's); an ineligible entry contributes 0 bytes and no error; an
eligible entry contributes its logical length in apparent-size mode and its
allocated size in on-disk mode, a failed allocation query contributing
0 bytes and exactly one error. -/
theorem claim_C1_entry_contribution (walk_options : WalkOptions) (device_id : Nat)
    (inodes : InodeFilter) (m : Metadata) :
    (fileSizeOfMeta walk_options device_id inodes m).1 =
        specContribution walk_options device_id inodes m ∧
      (fileSizeOfMeta walk_options device_id inodes m).2.1 =
        specErrorDelta walk_options device_id inodes m := by
  cases hdir : m.is_dir with
  | true =>
    simp [fileSizeOfMeta, specContribution, specErrorDelta, hdir]
  | false =>
    cases hchl : walk_options.count_hard_links <;>
      by_cases hmem : m.ino ∈ inodes <;>
        cases hxfs : walk_options.cross_filesystems <;>
          cases hsame : is_same_device device_id m <;>
            cases happ : walk_options.apparent_size <;>
              cases hsz : m.size_on_disk <;>
                simp [fileSizeOfMeta, specContribution, specErrorDelta, specEligible,
                  InodeFilter.add, hdir, hchl, hmem, hxfs, hsame, happ, hsz]

/-- Claim C9: with hard-link counting disabled, the identity tracker's
insert-on-check runs before the cross-filesystem device test: an entry whose
identity key is unseen but whose device differs from the root's still marks
the key as seen (and contributes 0 bytes, no error), and every later
non-directory entry with the same identity key — whatever its device, in
particular the root's own — contributes 0 bytes and no error. -/
theorem claim_C9_inode_marked_before_device_test (walk_options : WalkOptions)
    (device_id : Nat) (inodes : InodeFilter) (m m2 : Metadata)
    (hchl : walk_options.count_hard_links = false)
    (hxfs : walk_options.cross_filesystems = false)
    (hdir : m.is_dir = false) (hseen : m.ino ∉ inodes)
    (hdev : is_same_device device_id m = false)
    (hdir2 : m2.is_dir = false) (hino : m2.ino = m.ino) :
    fileSizeOfMeta walk_options device_id inodes m = (0, 0, m.ino :: inodes) ∧
      (fileSizeOfMeta walk_options device_id (m.ino :: inodes) m2).1 = 0 ∧
      (fileSizeOfMeta walk_options device_id (m.ino :: inodes) m2).2.1 = 0 := by
  refine ⟨?_, ?_⟩
  · simp [fileSizeOfMeta, InodeFilter.add, hchl, hxfs, hdir, hseen, hdev]
  · have hm2 : m2.ino ∈ m.ino :: inodes := by simp [hino]
    constructor <;>
      simp [fileSizeOfMeta, InodeFilter.add, hchl, hdir2, hm2]

/-- Options used for concrete runs: apparent size, no hard-link counting, no
cross-filesystem traversal, decimal formatting of width 4. -/
def exOpts : WalkOptions := ⟨true, false, false, 4, fun n => toString n⟩

/-- A non-directory entry with identity key 7 on device 2. -/
def exMetaA : Metadata := ⟨false, 7, 2, 100, some 100⟩

/-- A root whose device resolves to 1 and that yields one 100-byte file. -/
def exRootA : RootInput :=
  ⟨"a", false, some 1, [.ok (some (some ⟨false, 1, 1, 100, some 100⟩))]⟩

/-- A root whose device resolves to 1 and that yields one 50-byte file. -/
def exRootB : RootInput :=
  ⟨"b", true, some 1, [.ok (some (some ⟨false, 2, 1, 50, some 50⟩))]⟩

/-- A root whose device-identity resolution fails. -/
def exRootBad : RootInput := ⟨"bad", false, none, []⟩

/-- A non-directory entry with the same identity key 7 on device 1. -/
def exMetaB : Metadata := ⟨false, 7, 1, 50, some 50⟩

theorem claim_C9_witness :
    exOpts.count_hard_links = false ∧ exOpts.cross_filesystems = false ∧
      (7 : Nat) ∉ ([] : InodeFilter) ∧ is_same_device 1 exMetaA = false ∧
      (fileSizeOfMeta exOpts 1 [] exMetaA = (0, 0, [7]) ∧
        (fileSizeOfMeta exOpts 1 [7] exMetaB).1 = 0 ∧
        (fileSizeOfMeta exOpts 1 [7] exMetaB).2.1 = 0) :=
  ⟨rfl, rfl, by decide, rfl,
    claim_C9_inode_marked_before_device_test exOpts 1 [] exMetaA exMetaB
      rfl rfl rfl (by decide) rfl rfl rfl⟩

/-- Claim C10: with an empty sequence of root paths, `aggregate` writes
nothing at all (no result lines and no total line even when totals were
requested), succeeds, and returns zero global errors and statistics with
zero entries traversed, smallest-file size 0 (the sentinel is reset) and
largest-file size 0. -/
theorem claim_C10_empty_roots (out : Sink) (walk_options : WalkOptions)
    (compute_total sort_by_size_in_bytes : Bool) :
    aggregate out walk_options compute_total sort_by_size_in_bytes [] =
      .ok (out, ⟨0⟩, ⟨0, 0, 0⟩) := by
  cases sort_by_size_in_bytes <;>
    simp [aggregate, aggLoop, writeAll, sortRecords, st0]

/-- The error suffix as the claim words it: present exactly when the error
count is positive, with the plural `s` omitted exactly when it is 1. -/
def specErrorsSuffix (n : Nat) : String :=
  if 0 < n then
    "  <" ++ toString n ++ " IO Error" ++ (if n = 1 then "" else "s") ++ ">"
  else ""

theorem rightAlign_length (s : String) (w : Nat) :
    (rightAlign s w).length = max w s.length := by
  simp [rightAlign, String.length_append]
  omega

theorem rightAlign_data (s : String) (w : Nat) :
    (rightAlign s w).data = List.replicate (w - s.length) ' ' ++ s.data := by
  simp [rightAlign, String.data_append]

/-- Claim C8: every rendered result line consists of the byte count formatted
by the display format, right-aligned to that format's maximum width (left
padding with spaces, never truncating), the path, and an error suffix that is
present if and only if the error count is positive, reading exactly
`  <N IO Error(s)>` with the `s` omitted exactly when `N = 1`. -/
theorem claim_C8_rendered_line (options : WalkOptions) (path : String)
    (num_bytes num_errors : Nat) (path_color : Option Color) :
    output_colored_path options path num_bytes num_errors path_color =
        greenWrap (rightAlign (options.byte_format_display num_bytes)
            options.byte_format_width) ++ " " ++
          (match path_color with
            | some color => colorWrap color path
            | none => path) ++ specErrorsSuffix num_errors ++ "\n" ∧
      (rightAlign (options.byte_format_display num_bytes)
          options.byte_format_width).length =
        max options.byte_format_width (options.byte_format_display num_bytes).length ∧
      (rightAlign (options.byte_format_display num_bytes)
          options.byte_format_width).data =
        List.replicate (options.byte_format_width -
            (options.byte_format_display num_bytes).length) ' ' ++
          (options.byte_format_display num_bytes).data := by
  refine ⟨?_, rightAlign_length _ _, rightAlign_data _ _⟩
  have hsuffix : (if num_errors != 0 then
      "  <" ++ toString num_errors ++ " IO Error" ++
        (if num_errors > 1 then "s" else "") ++ ">"
    else "") = specErrorsSuffix num_errors := by
    rcases Nat.eq_zero_or_pos num_errors with h0 | hpos
    · simp [h0, specErrorsSuffix]
    · by_cases h1 : num_errors = 1
      · simp [h1, specErrorsSuffix]
      · have h2 : 1 < num_errors := by omega
        simp [specErrorsSuffix, hpos, h2, Nat.pos_iff_ne_zero.mp hpos, h1]
  cases path_color with
  | some color =>
    simp only [output_colored_path]
    rw [hsuffix]
  | none =>
    simp only [output_colored_path]
    rw [hsuffix]

theorem runRoots_length (walk_options : WalkOptions) (rs : List RootInput) :
    ∀ st, (runRoots walk_options st rs).2.length = rs.length := by
  induction rs with
  | nil => intro st; rfl
  | cons root rest ih =>
    intro st
    simp [runRoots, ih]

theorem runRoots_flag_count (walk_options : WalkOptions) (rs : List RootInput) :
    ∀ st, ((runRoots walk_options st rs).2.filter (fun p => p.1)).length =
      (rs.filter (fun r => r.device_id.isSome)).length := by
  induction rs with
  | nil => intro st; rfl
  | cons root rest ih =>
    intro st
    cases hdev : root.device_id with
    | none => simp [runRoots, rootRecordOf, hdev, List.filter_cons, ih]
    | some device_id => simp [runRoots, rootRecordOf, hdev, List.filter_cons, ih]

theorem sortRecords_length (l : List RootRecord) :
    (sortRecords l).length = l.length :=
  (sortRecords_perm l).length_eq

theorem sortRecords_sum (l : List RootRecord) :
    ((sortRecords l).map (fun r => r.num_bytes)).sum =
      (l.map (fun r => r.num_bytes)).sum :=
  ((sortRecords_perm l).map (fun r => r.num_bytes)).sum_eq

/-- Claim C2 counterexample: with sorting not requested, a root whose
device-identity resolution fails produces no output line at all — its record
is pushed onto the deferred buffer, which is only drained when sorting is
requested. Here one root is given and zero lines are written (the sink is
returned unchanged), while the claim demands exactly one line per root. -/
theorem claim_C2_counterexample :
    (aggregate ⟨[], none⟩ exOpts false false [⟨"bad", false, none, []⟩] =
        .ok (⟨[], none⟩, ⟨1⟩, ⟨0, 0, 0⟩)) ∧
      ([] : List String).length ≠ [(⟨"bad", false, none, []⟩ : RootInput)].length :=
  ⟨by rfl, by decide⟩

/-- Claim C2 (amended): when sorting is requested, exactly one formatted line
is produced per root — including a root whose device-identity resolution
fails, which contributes a zero-byte, one-error record — in ascending-by-size
order. When sorting is not requested, exactly one line is produced per root
whose device resolution succeeds, in input order; a root whose device
resolution fails still counts one error and a zero-byte record, but its
record is only buffered and never rendered. -/
theorem claim_C2_one_line_per_root (out : Sink) (walk_options : WalkOptions)
    (compute_total : Bool) (paths : List RootInput) (h : out.failAt = none) :
    (aggregate out walk_options compute_total true paths = .ok
        (⟨out.lines ++
            (sortRecords (allRecords (runRoots walk_options st0 paths).2)).map
              (renderRecord walk_options) ++
            totalLinePart walk_options compute_total paths, none⟩,
         ⟨globalErrors walk_options paths⟩, finalStats walk_options paths) ∧
      ((sortRecords (allRecords (runRoots walk_options st0 paths).2)).map
          (renderRecord walk_options)).length = paths.length ∧
      List.Sorted byteLe (sortRecords (allRecords (runRoots walk_options st0 paths).2))) ∧
    (aggregate out walk_options compute_total false paths = .ok
        (⟨out.lines ++ okLines walk_options (runRoots walk_options st0 paths).2 ++
            totalLinePart walk_options compute_total paths, none⟩,
         ⟨globalErrors walk_options paths⟩, finalStats walk_options paths) ∧
      (okLines walk_options (runRoots walk_options st0 paths).2).length =
        (paths.filter (fun r => r.device_id.isSome)).length) := by
  refine ⟨⟨?_, ?_, sortRecords_sorted _⟩, ⟨?_, ?_⟩⟩
  · have := aggregate_ok out walk_options compute_total true paths h
    simpa [aggregateLines, bodyLines, List.append_assoc] using this
  · simp [List.length_map, sortRecords_length, allRecords, runRoots_length]
  · have := aggregate_ok out walk_options compute_total false paths h
    simpa [aggregateLines, bodyLines, List.append_assoc] using this
  · simp [okLines, List.length_map, runRoots_flag_count]

theorem claim_C2_witness :
    (⟨[], none⟩ : Sink).failAt = none ∧
      ((sortRecords (allRecords (runRoots exOpts st0
          [⟨"bad", false, none, []⟩, exRootA]).2)).map (renderRecord exOpts)).length =
        [(⟨"bad", false, none, []⟩ : RootInput), exRootA].length :=
  ⟨rfl, (claim_C2_one_line_per_root ⟨[], none⟩ exOpts false
    [⟨"bad", false, none, []⟩, exRootA] rfl).1.2.1⟩

/-- Claim C3: a total line is rendered if and only if more than one root was
given and totals were requested; it is rendered with the literal label
`total`, the grand total — the sum of all per-root byte totals — and the
global error count, and with no path-type coloring. -/
theorem claim_C3_total_line (out : Sink) (walk_options : WalkOptions)
    (compute_total sort_by_size_in_bytes : Bool) (paths : List RootInput)
    (h : out.failAt = none) :
    aggregate out walk_options compute_total sort_by_size_in_bytes paths = .ok
        (⟨out.lines ++ bodyLines walk_options sort_by_size_in_bytes paths ++
            (if 1 < paths.length ∧ compute_total = true then
              [output_colored_path walk_options "total" (grandTotal walk_options paths)
                (globalErrors walk_options paths) none]
            else []), none⟩,
         ⟨globalErrors walk_options paths⟩, finalStats walk_options paths) ∧
      grandTotal walk_options paths =
        ((runRoots walk_options st0 paths).2.map (fun p => p.2.num_bytes)).sum := by
  refine ⟨?_, rfl⟩
  have := aggregate_ok out walk_options compute_total sort_by_size_in_bytes paths h
  simpa [aggregateLines, totalLinePart, List.append_assoc] using this

theorem claim_C3_witness :
    (⟨[], none⟩ : Sink).failAt = none ∧
      aggregate ⟨[], none⟩ exOpts true true [exRootA, exRootB] = .ok
        (⟨["\x1b[32m  50\x1b[39m b\n",
           "\x1b[32m 100\x1b[39m \x1b[36ma\x1b[39m\n",
           "\x1b[32m 150\x1b[39m total\n"], none⟩,
         ⟨0⟩, ⟨2, 50, 100⟩) := by
  refine ⟨rfl, ?_⟩
  rw [(claim_C3_total_line ⟨[], none⟩ exOpts true true [exRootA, exRootB] rfl).1]
  rfl

/-- Claim C4: when sorted output is requested, the rendered per-root lines
are the buffered records sorted ascending by byte total with a stable sort —
records with equal byte totals keep their root-encounter order, expressed as
the equality of the equal-total sublists before and after sorting — and
sorting does not change the grand total that the total line reports. -/
theorem claim_C4_stable_sort (out : Sink) (walk_options : WalkOptions)
    (compute_total : Bool) (paths : List RootInput) (h : out.failAt = none) :
    aggregate out walk_options compute_total true paths = .ok
        (⟨out.lines ++
            (sortRecords (allRecords (runRoots walk_options st0 paths).2)).map
              (renderRecord walk_options) ++
            totalLinePart walk_options compute_total paths, none⟩,
         ⟨globalErrors walk_options paths⟩, finalStats walk_options paths) ∧
      List.Sorted byteLe (sortRecords (allRecords (runRoots walk_options st0 paths).2)) ∧
      (∀ b : Nat, (sortRecords (allRecords (runRoots walk_options st0 paths).2)).filter
            (fun r => r.num_bytes == b) =
          (allRecords (runRoots walk_options st0 paths).2).filter
            (fun r => r.num_bytes == b)) ∧
      ((sortRecords (allRecords (runRoots walk_options st0 paths).2)).map
          (fun r => r.num_bytes)).sum =
        ((allRecords (runRoots walk_options st0 paths).2).map
          (fun r => r.num_bytes)).sum ∧
      grandTotal walk_options paths =
        ((allRecords (runRoots walk_options st0 paths).2).map
          (fun r => r.num_bytes)).sum := by
  refine ⟨?_, sortRecords_sorted _, fun b => filter_sortRecords b _, sortRecords_sum _, ?_⟩
  · have := aggregate_ok out walk_options compute_total true paths h
    simpa [aggregateLines, bodyLines, List.append_assoc] using this
  · simp [grandTotal, recBytes, allRecords, List.map_map]
    rfl

theorem claim_C4_witness :
    (⟨[], none⟩ : Sink).failAt = none ∧
      ((sortRecords (allRecords (runRoots exOpts st0 [exRootA, exRootB]).2)).map
          (fun r => r.num_bytes)).sum =
        ((allRecords (runRoots exOpts st0 [exRootA, exRootB]).2).map
          (fun r => r.num_bytes)).sum :=
  ⟨rfl, (claim_C4_stable_sort ⟨[], none⟩ exOpts true [exRootA, exRootB] rfl).2.2.2.1⟩

/-- Claim C5: the aggregation call fails if and only if a write to the
results sink fails. With a reliable sink the call always returns successfully
— whatever device-resolution, walker-enumeration and size-query failures the
roots contain, they are absorbed into error counters and contribute 0 bytes —
and with a sink whose `k`-th write fails, the call fails exactly when the run
actually attempts that write. -/
theorem claim_C5_failure_semantics (out : Sink) (walk_options : WalkOptions)
    (compute_total sort_by_size_in_bytes : Bool) (paths : List RootInput) :
    (out.failAt = none →
      aggregate out walk_options compute_total sort_by_size_in_bytes paths = .ok
        (⟨out.lines ++ aggregateLines walk_options compute_total sort_by_size_in_bytes paths,
          none⟩,
         ⟨globalErrors walk_options paths⟩, finalStats walk_options paths)) ∧
    (∀ k : Nat, out.failAt = some k →
      ((aggregate out walk_options compute_total sort_by_size_in_bytes paths = .error ()) ↔
        (out.lines.length ≤ k ∧
          k < out.lines.length +
            (aggregateLines walk_options compute_total sort_by_size_in_bytes paths).length))) :=
  ⟨fun h => aggregate_ok out walk_options compute_total sort_by_size_in_bytes paths h,
   fun k hk => aggregate_error_iff out walk_options compute_total sort_by_size_in_bytes paths k hk⟩

theorem claim_C5_witness :
    ((⟨[], none⟩ : Sink).failAt = none ∧
      aggregate ⟨[], none⟩ exOpts true false
          [exRootBad, ⟨"w", true, some 1, [.walkErr, .ok (some none),
            .ok (some (some ⟨false, 3, 1, 10, none⟩))]⟩] = .ok
        (⟨[] ++ aggregateLines exOpts true false
            [exRootBad, ⟨"w", true, some 1, [.walkErr, .ok (some none),
              .ok (some (some ⟨false, 3, 1, 10, none⟩))]⟩], none⟩,
         ⟨globalErrors exOpts
            [exRootBad, ⟨"w", true, some 1, [.walkErr, .ok (some none),
              .ok (some (some ⟨false, 3, 1, 10, none⟩))]⟩]⟩,
         finalStats exOpts
            [exRootBad, ⟨"w", true, some 1, [.walkErr, .ok (some none),
              .ok (some (some ⟨false, 3, 1, 10, none⟩))]⟩])) ∧
      (aggregate ⟨[], some 0⟩ exOpts true false [exRootA] = .error ()) := by
  refine ⟨⟨rfl, (claim_C5_failure_semantics ⟨[], none⟩ exOpts true false _).1 rfl⟩, ?_⟩
  rw [(claim_C5_failure_semantics ⟨[], some 0⟩ exOpts true false [exRootA]).2 0 rfl]
  decide

/-- Claim C6: if zero entries are traversed across all roots, the returned
statistics report a smallest-file size of exactly 0, never the
`u128::max_value()` initialisation sentinel; if at least one entry is
traversed, the sentinel reset is not applied and the accumulated statistics
are returned unchanged. -/
theorem claim_C6_smallest_sentinel (out : Sink) (walk_options : WalkOptions)
    (compute_total sort_by_size_in_bytes : Bool) (paths : List RootInput)
    (h : out.failAt = none) :
    aggregate out walk_options compute_total sort_by_size_in_bytes paths = .ok
        (⟨out.lines ++ aggregateLines walk_options compute_total sort_by_size_in_bytes paths,
          none⟩,
         ⟨globalErrors walk_options paths⟩, finalStats walk_options paths) ∧
      ((runRoots walk_options st0 paths).1.stats.entries_traversed = 0 →
        (finalStats walk_options paths).smallest_file_in_bytes = 0) ∧
      ((runRoots walk_options st0 paths).1.stats.entries_traversed ≠ 0 →
        finalStats walk_options paths = (runRoots walk_options st0 paths).1.stats) := by
  refine ⟨aggregate_ok out walk_options compute_total sort_by_size_in_bytes paths h, ?_, ?_⟩
  · intro h0
    simp [finalStats, h0]
  · intro h0
    simp [finalStats, h0]

theorem claim_C6_witness :
    ((⟨[], none⟩ : Sink).failAt = none ∧
      ((runRoots exOpts st0 [⟨"e", false, some 1, []⟩]).1.stats.entries_traversed = 0 →
        (finalStats exOpts [⟨"e", false, some 1, []⟩]).smallest_file_in_bytes = 0)) ∧
      (finalStats exOpts [⟨"e", false, some 1, []⟩]).smallest_file_in_bytes = 0 :=
  ⟨⟨rfl, (claim_C6_smallest_sentinel ⟨[], none⟩ exOpts true true
      [⟨"e", false, some 1, []⟩] rfl).2.1⟩,
   (claim_C6_smallest_sentinel ⟨[], none⟩ exOpts true true
      [⟨"e", false, some 1, []⟩] rfl).2.1 (by decide)⟩

/-- Claim C7: with no progress sink, the writer is permanently inert — no
event trace makes `throttled` invoke its closure, and `unthrottled` performs
no write either; with a sink, every closure invocation by `throttled`
consumes one distinct timer tick (so on any prefix of the trace the number of
invocations is at most the number of ticks, which well-formedness spaces at
least one interval apart), and on a well-formed trace — ticks no earlier
than the one-second startup delay plus one interval per preceding tick —
no `throttled` invocation happens before the startup delay has passed. -/
theorem claim_C7_throttled_progress :
    (∀ (evs : List TWEvent) (b : Bool), twRun ⟨false, b⟩ evs = []) ∧
    (∀ (evs : List TWEvent) (n : Nat),
      twFireCount (twRun (ThrottleWriter.new true) (List.take n evs)) ≤
        (ticksOf (List.take n evs)).length) ∧
    (∀ (d : Nat) (evs : List TWEvent), TWWF d evs →
      ∀ p ∈ twRun (ThrottleWriter.new true) evs, p.1 = true → 1000 ≤ p.2) := by
  refine ⟨twRun_no_out, ?_, ?_⟩
  · intro evs n
    have h := twFireCount_le_ticks (List.take n evs) false
    simpa [ThrottleWriter.new] using h
  · intro d evs hwf p hp hfire
    have hticks : ∀ t ∈ ticksOf evs, (1000 : Nat) ≤ t := by
      intro t ht
      obtain ⟨⟨i, hlen⟩, hi⟩ := List.mem_iff_get.mp ht
      have hb := hwf.2 i hlen
      rw [hi] at hb
      omega
    exact twRun_fires_after_startup evs hwf.1 hticks p
      (by simpa [ThrottleWriter.new] using hp) hfire

theorem claim_C7_witness :
    TWWF 100 [.tick 1000, .throttled 1050, .unthrottled 1100] ∧ (1000 : Nat) ≤ 1050 :=
  ⟨⟨by decide, by decide⟩,
   claim_C7_throttled_progress.2.2 100 [.tick 1000, .throttled 1050, .unthrottled 1100]
     ⟨by decide, by decide⟩ (true, 1050) (by decide) rfl⟩
